import Mathlib

/-!
Verification of the crane paper-catalog server (`crane.go` plus its helper
file) against its natural-language specification.

The Go program is shallowly embedded: Go maps become association lists
(`List (String × α)`) with Go's read-absent-returns-zero semantics made
explicit through `Option`; filesystem and network side effects are threaded
through explicit oracle records stating which operation succeeds; a Go
runtime panic (assignment into a nil map, method call on a nil pointer) is a
distinct outcome of the embedded operation.  Every definition below is
translated from the source; comments cite the function it embeds.
-/

namespace Crane

/-! ## Go string and path primitives

The catalog code uses `strings.Replace(s, old, new, -1)`,
`strings.ToLower`, `strings.HasPrefix`, `strings.TrimSuffix` and the
`path/filepath` helpers `Join`, `Dir`, `Base` on clean, slash-separated
relative paths.  They are modeled here on `List Char` / `String`. -/

/-- Helper for `goReplace`, structurally recursive on the scanned list.
While `skip > 0` the character belongs to an occurrence of `old` that was
already replaced and is dropped; at `skip = 0` the scanner tests whether
`old` starts here, emitting `new` and arming the skip counter on a match
(leftmost, non-overlapping, exactly as `strings.Replace` scans). -/
def charReplaceAux (old new : List Char) : List Char → Nat → List Char
  | [], _ => []
  | _ :: rest, skip + 1 => charReplaceAux old new rest skip
  | c :: rest, 0 =>
    if old ≠ [] ∧ old.isPrefixOf (c :: rest) then
      new ++ charReplaceAux old new rest (old.length - 1)
    else
      c :: charReplaceAux old new rest 0

/-- Embeds `strings.Replace(s, old, new, -1)`: replace every non-overlapping
occurrence of `old`, scanning left to right.  The program only calls it with
non-empty `old` (`".."` and `"/"`). -/
def goReplace (s old new : String) : String :=
  ⟨charReplaceAux old.data new.data s.data 0⟩

/-- Embeds `strings.ToLower` (ASCII case folding suffices for the program's
inputs; `Char.toLower` agrees with Go on ASCII). -/
def goToLower (s : String) : String :=
  ⟨s.data.map Char.toLower⟩

/-- Embeds `strings.HasPrefix(s, pre)`. -/
def goHasPfx (s pre : String) : Bool :=
  pre.data.isPrefixOf s.data

/-- Embeds `filepath.Join(a, b)` for the clean, relative, slash-separated
path components the catalog uses (no `.`/`..` segments, no duplicated or
trailing separators, which `filepath.Clean` would rewrite). -/
def goJoin (a b : String) : String :=
  if a = "" then b else if b = "" then a else a ++ "/" ++ b

/-- Splits a character list on `'/'`; always returns at least one (possibly
empty) group.  Used to model `filepath.Dir` and `filepath.Base`. -/
def splitSlash : List Char → List (List Char)
  | [] => [[]]
  | c :: rest =>
    match splitSlash rest with
    | [] => [[]]
    | g :: gs => if c = '/' then [] :: g :: gs else (c :: g) :: gs

/-- Joins character-list groups with `'/'`; inverse of `splitSlash`. -/
def joinSlash : List (List Char) → List Char
  | [] => []
  | [g] => g
  | g :: g' :: gs => g ++ '/' :: joinSlash (g' :: gs)

/-- Embeds `filepath.Dir(p)` for clean relative paths: everything before the
last separator, or `"."` when there is none. -/
def goDir (p : String) : String :=
  match splitSlash p.data with
  | [] => "."
  | [_] => "."
  | g :: g' :: gs => ⟨joinSlash ((g :: g' :: gs).dropLast)⟩

/-- Embeds `filepath.Base(p)` for clean relative paths: the last path
component, or `"."` for the empty path. -/
def goBase (p : String) : String :=
  if p = "" then "."
  else
    match (splitSlash p.data).getLast? with
    | some s => ⟨s⟩
    | none => "."

/-! ## Go association-list maps

`papers.List` is `map[string]map[string]*Paper`.  A Go map is embedded as an
association list; `goLookup` is a map read (`none` plays the role of the
zero value: a nil inner map or nil pointer), `goInsert` is `m[k] = v`,
`goErase` is `delete(m, k)`. -/

/-- Go map read `m[k]` (comma-ok form: `none` when the key is absent). -/
def goLookup {α : Type} (l : List (String × α)) (k : String) : Option α :=
  match l with
  | [] => none
  | (k', v) :: rest => if k' = k then some v else goLookup rest k

/-- Go map write `m[k] = v` on a non-nil map: replaces the binding if the
key is present, otherwise appends it. -/
def goInsert {α : Type} (l : List (String × α)) (k : String) (v : α) :
    List (String × α) :=
  match l with
  | [] => [(k, v)]
  | (k', v') :: rest =>
    if k' = k then (k', v) :: rest else (k', v') :: goInsert rest k v

/-- Go map delete `delete(m, k)`. -/
def goErase {α : Type} (l : List (String × α)) (k : String) :
    List (String × α) :=
  match l with
  | [] => []
  | (k', v') :: rest => if k' = k then rest else (k', v') :: goErase rest k

/-! ## Data model (`crane.go` lines 38-69) -/

/-- Embeds `type Contributor struct` (`crane.go` lines 38-43). -/
structure Contributor where
  FirstName : String := ""
  LastName : String := ""
  Role : String := ""
  Sequence : String := ""
deriving DecidableEq

/-- Embeds `type Meta struct` (`crane.go` lines 45-57); the `XMLName` tag
carries no data and is dropped. -/
structure Meta where
  Journal : String := ""
  ISSN : String := ""
  Title : String := ""
  Contributors : List Contributor := []
  PubYear : String := ""
  PubMonth : String := ""
  FirstPage : String := ""
  LastPage : String := ""
  DOI : String := ""
  Resource : String := ""
deriving DecidableEq

/-- Embeds `type Paper struct` (`crane.go` lines 59-64). -/
structure Paper where
  Meta : Meta := {}
  MetaPath : String := ""
  PaperName : String := ""
  PaperPath : String := ""
deriving DecidableEq

/-- Embeds `type Papers struct` (`crane.go` lines 66-69): the two-level
category index `List : map[string]map[string]*Paper` and the catalog root
`Path`. -/
structure Papers where
  List : List (String × (List (String × Paper)))
  Path : String
deriving DecidableEq

/-- Two-level read `papers.List[c][k]`: reading through an absent (nil)
inner map yields the zero value, as in Go. -/
def goLookup2 (l : List (String × (List (String × Paper))))
    (c k : String) : Option Paper :=
  match goLookup l c with
  | none => none
  | some m => goLookup m k

/-! ## Naming Resolver (`getPaperFileNameFromMeta`, `crane.go` lines 81-96) -/

/-- Embeds the author-selection loop of `getPaperFileNameFromMeta`
(`crane.go` lines 82-89): the first contributor whose sequence tag is
`"first"` supplies the name.  The source computes
`mainAuthor = strings.Replace(contributor.LastName, "..", "", -1)` and then
immediately reassigns `mainAuthor = strings.Replace(contributor.LastName,
"/", "", -1)` from the original `LastName`, discarding the first result;
the dead store is kept here verbatim (`m1`). -/
def metaMainAuthor (p : Meta) : String :=
  match p.Contributors.find? (fun ct => ct.Sequence == "first") with
  | some ct =>
    let m1 := goReplace ct.LastName ".." ""
    let m2 := goReplace ct.LastName "/" ""
    let _ := m1
    m2
  | none => ""

/-- Embeds the remainder of `getPaperFileNameFromMeta`: empty-author or
empty-year inputs yield no candidate, otherwise the lowercased author is
concatenated with the (partially sanitized) year. -/
def getPaperFileNameFromMeta (p : Meta) : String :=
  let mainAuthor : String := metaMainAuthor p
  if mainAuthor = "" then ""
  else if p.PubYear = "" then ""
  else
    let y1 := goReplace p.PubYear ".." ""
    let y2 := goReplace p.PubYear "/" ""
    let _ := y1
    goToLower mainAuthor ++ y2

/-- Substring containment test used to state the sanitization claims. -/
def strContains (s sub : String) : Bool :=
  (List.range (s.data.length + 1)).any
    (fun i => sub.data.isPrefixOf (s.data.drop i))


/-! ## Unique-name resolution (`getUniqueName`, `crane.go` lines 119-131)

The Go loop keeps appending `"-" + ext` to the current name until the key
`filepath.Join(c, name + ".pdf")` is free.  Each iteration strictly
lengthens the probed key, and a colliding key must be one of the finitely
many keys of the inner map, so the loop terminates; that argument is the
termination measure below. -/

/-- Keys of the (possibly nil) inner map of category `c`. -/
def innerKeys (papers : Papers) (c : String) : List String :=
  match goLookup papers.List c with
  | none => []
  | some m => m.map Prod.fst

/-- Termination measure for `getUniqueName`: the number of existing keys in
the category at least as long as the currently probed key. -/
def uniqueMeasure (papers : Papers) (c name : String) : Nat :=
  ((innerKeys papers c).filter
    (fun s => (goJoin c (name ++ ".pdf")).length ≤ s.length)).length

theorem goLookup_mem {α : Type} {l : List (String × α)} {k : String} {v : α}
    (h : goLookup l k = some v) : k ∈ l.map Prod.fst := by
  induction l with
  | nil => simp [goLookup] at h
  | cons kv rest ih =>
    by_cases hk : kv.1 = k
    · simp [hk]
    · rw [goLookup] at h
      simp only [hk, if_false] at h
      exact List.mem_cons_of_mem _ (ih h)

theorem goJoin_length_lt {c x y : String} (h : x.length < y.length)
    (hx : x ≠ "") : (goJoin c x).length < (goJoin c y).length := by
  have hy : y ≠ "" := by
    intro he
    rw [he, show ("" : String).length = 0 from rfl] at h
    omega
  unfold goJoin
  by_cases hc : c = ""
  · rw [if_pos hc, if_pos hc]
    exact h
  · rw [if_neg hc, if_neg hc, if_neg hx, if_neg hy]
    simp only [String.length_append]
    omega

theorem probe_key_length_lt (c name : String) (ext : Nat) :
    (goJoin c (name ++ ".pdf")).length <
      (goJoin c (name ++ "-" ++ toString ext ++ ".pdf")).length := by
  have h4 : (".pdf" : String).length = 4 := by decide
  have h1 : ("-" : String).length = 1 := by decide
  apply goJoin_length_lt
  · simp only [String.length_append]
    omega
  · intro he
    have hlen := congrArg String.length he
    simp only [String.length_append, String.length_empty] at hlen
    omega

theorem lookup2_mem_innerKeys {papers : Papers} {c k : String} {pr : Paper}
    (h : goLookup2 papers.List c k = some pr) : k ∈ innerKeys papers c := by
  unfold goLookup2 at h
  unfold innerKeys
  cases hm : goLookup papers.List c with
  | none => rw [hm] at h; simp at h
  | some m => rw [hm] at h; exact goLookup_mem h

theorem uniqueMeasure_pos (papers : Papers) (c name : String) {pr : Paper}
    (h : goLookup2 papers.List c (goJoin c (name ++ ".pdf")) = some pr) :
    0 < uniqueMeasure papers c name := by
  have hmem := lookup2_mem_innerKeys h
  unfold uniqueMeasure
  apply List.length_pos.mpr
  exact List.ne_nil_of_mem (List.mem_filter.mpr ⟨hmem, by simp⟩)

theorem uniqueMeasure_lt (papers : Papers) (c name : String) (ext : Nat)
    {pr : Paper}
    (h : goLookup2 papers.List c (goJoin c (name ++ ".pdf")) = some pr) :
    uniqueMeasure papers c (name ++ "-" ++ toString ext) <
      uniqueMeasure papers c name := by
  have hmem : goJoin c (name ++ ".pdf") ∈ innerKeys papers c :=
    lookup2_mem_innerKeys h
  have hlt := probe_key_length_lt c name ext
  unfold uniqueMeasure
  have hsub : List.Sublist
      ((innerKeys papers c).filter
        (fun s => (goJoin c (name ++ "-" ++ toString ext ++ ".pdf")).length ≤ s.length))
      ((innerKeys papers c).filter
        (fun s => (goJoin c (name ++ ".pdf")).length ≤ s.length)) := by
    apply List.monotone_filter_right
    intro a ha
    simp only [decide_eq_true_eq] at ha ⊢
    omega
  apply Nat.lt_of_le_of_ne hsub.length_le
  intro heq
  have heqL := hsub.eq_of_length_le (le_of_eq heq.symm)
  have hin : goJoin c (name ++ ".pdf") ∈ (innerKeys papers c).filter
      (fun s => (goJoin c (name ++ ".pdf")).length ≤ s.length) :=
    List.mem_filter.mpr ⟨hmem, by simp⟩
  rw [← heqL] at hin
  have h2 := (List.mem_filter.mp hin).2
  simp only [decide_eq_true_eq] at h2
  omega

/-- Embeds the body of `getUniqueName`'s `for` loop: probe the key for the
current name; on a collision append `"-" + ext`, bump `ext`, retry. -/
def getUniqueNameAux (papers : Papers) (c : String) (name : String)
    (ext : Nat) : String :=
  match h : goLookup2 papers.List c (goJoin c (name ++ ".pdf")) with
  | none => name
  | some _ => getUniqueNameAux papers c (name ++ "-" ++ toString ext) (ext + 1)
termination_by uniqueMeasure papers c name
decreasing_by
  exact uniqueMeasure_lt papers c name ext h

/-- Embeds `getUniqueName` (`crane.go` lines 119-131): the loop starts with
`ext := 2`. -/
def getUniqueName (papers : Papers) (c : String) (name : String) : String :=
  getUniqueNameAux papers c name 2

/-- The name probed on the `i`-th collision: `probes n 0 = n`,
`probes n 1 = n-2`, `probes n 2 = n-2-3`, each suffix appended to the
previously probed name (this is what the source's `name = fmt.Sprint(name,
"-", ext)` produces). -/
def probes (name : String) : Nat → String
  | 0 => name
  | i + 1 => probes name i ++ "-" ++ toString (i + 2)

/-- A probe collides when its key is already bound in the category. -/
def taken (papers : Papers) (c nm : String) : Bool :=
  (goLookup2 papers.List c (goJoin c (nm ++ ".pdf"))).isSome

theorem getUniqueNameAux_probes (papers : Papers) (c base : String) :
    ∀ (n j : Nat), uniqueMeasure papers c (probes base j) ≤ n →
      ∃ i, getUniqueNameAux papers c (probes base j) (j + 2) =
          probes base (j + i) ∧
        (∀ t, t < i → taken papers c (probes base (j + t)) = true) ∧
        taken papers c (probes base (j + i)) = false := by
  intro n
  induction n with
  | zero =>
    intro j hj
    cases htk : goLookup2 papers.List c (goJoin c (probes base j ++ ".pdf")) with
    | some pr =>
      exact absurd hj (by have := uniqueMeasure_pos papers c _ htk; omega)
    | none =>
      refine ⟨0, ?_, by omega, ?_⟩
      · rw [getUniqueNameAux, htk]; rfl
      · simp [taken, htk]
  | succ n ih =>
    intro j hj
    cases htk : goLookup2 papers.List c (goJoin c (probes base j ++ ".pdf")) with
    | none =>
      refine ⟨0, ?_, by omega, ?_⟩
      · rw [getUniqueNameAux, htk]; rfl
      · simp [taken, htk]
    | some pr =>
      have hdec := uniqueMeasure_lt papers c (probes base j) (j + 2) htk
      have hstep : probes base (j + 1) =
          probes base j ++ "-" ++ toString (j + 2) := rfl
      have hle : uniqueMeasure papers c (probes base (j + 1)) ≤ n := by
        rw [hstep]; omega
      obtain ⟨i, h1, h2, h3⟩ := ih (j + 1) hle
      refine ⟨i + 1, ?_, ?_, ?_⟩
      · rw [getUniqueNameAux, htk, ← hstep,
          show j + 2 + 1 = (j + 1) + 2 from by omega, h1,
          show j + 1 + i = j + (i + 1) from by omega]
      · intro t ht
        match t with
        | 0 => simp [taken, htk]
        | t' + 1 =>
          rw [show j + (t' + 1) = (j + 1) + t' from by omega]
          exact h2 t' (by omega)
      · rw [show j + (i + 1) = (j + 1) + i from by omega]
        exact h3

/-- Full characterization of `getUniqueName`: it walks the probe sequence
`n, n-2, n-2-3, n-2-3-4, ...` and returns its first collision-free
member. -/
theorem getUniqueName_probes (papers : Papers) (c name : String) :
    ∃ i, getUniqueName papers c name = probes name i ∧
      (∀ t, t < i → taken papers c (probes name t) = true) ∧
      taken papers c (probes name i) = false := by
  obtain ⟨i, h1, h2, h3⟩ :=
    getUniqueNameAux_probes papers c name
      (uniqueMeasure papers c (probes name 0)) 0 le_rfl
  refine ⟨i, ?_, ?_, ?_⟩
  · rw [getUniqueName]
    rw [show (0 : Nat) + 2 = 2 from rfl] at h1
    rw [show probes name 0 = name from rfl] at h1
    rw [h1, Nat.zero_add]
  · intro t ht
    have := h2 t ht
    rwa [Nat.zero_add] at this
  · rw [← Nat.zero_add i]
    exact h3

/-! ## Catalog mutation operations (`crane.go` lines 302-419)

Each operation performs filesystem side effects (`os.Remove`,
`os.RemoveAll`, `os.Rename`, `os.Stat`) interleaved with index mutation.
The filesystem is abstracted by an oracle stating which call succeeds; the
operations return the Go error (as a structured constructor per `return`
site) together with the resulting index state. -/

/-- One constructor per error-`return` site of the catalog operations. -/
inductive CatErr where
  | categoryNotExist
  | paperNotExist
  | paperExistsInDest
  | categoryExists
  | removePaperFailed
  | removeMetaFailed
  | removeAllFailed
  | renameDirFailed
  | renamePaperFailed
  | renameMetaFailed
deriving DecidableEq

/-- Filesystem oracle: which `os` call succeeds.  `statExists p` models
`os.Stat(p)` returning no error. -/
structure FSOracle where
  rename : String → String → Bool
  statExists : String → Bool
  remove : String → Bool
  removeAll : String → Bool

/-- Models a field write through the `*Paper` pointer stored at
`l[c][k]` (`l[c][k].PaperPath = ...` and friends): replaces the whole
entry, since our embedding is value-based. -/
def goSetEntry (l : List (String × (List (String × Paper))))
    (c k : String) (v : Paper) : List (String × (List (String × Paper))) :=
  match goLookup l c with
  | none => l
  | some m => goInsert l c (goInsert m k v)

/-- Models `delete(l[c], k)`. -/
def goDelEntry (l : List (String × (List (String × Paper))))
    (c k : String) : List (String × (List (String × Paper))) :=
  match goLookup l c with
  | none => l
  | some m => goInsert l c (goErase m k)

/-- Embeds `DeletePaper` (`crane.go` lines 302-332): validate category and
paper, `os.Remove` the PDF, optionally `os.Stat`/`os.Remove` the metadata
sidecar, and only then delete the index entry. -/
def DeletePaper (fs : FSOracle) (papers : Papers) (p : String) :
    Option CatErr × Papers :=
  let c := goDir p
  match goLookup papers.List c with
  | none => (some .categoryNotExist, papers)
  | some m =>
    match goLookup m p with
    | none => (some .paperNotExist, papers)
    | some paper =>
      if fs.remove paper.PaperPath = false then
        (some .removePaperFailed, papers)
      else
        let committed : Option CatErr × Papers :=
          (none, { papers with List := goInsert papers.List c (goErase m p) })
        if paper.MetaPath ≠ "" then
          if fs.statExists paper.MetaPath then
            if fs.remove paper.MetaPath = false then
              (some .removeMetaFailed, papers)
            else committed
          else committed
        else committed

/-- Embeds `DeleteCategory` (`crane.go` lines 336-352): validate, remove the
subtree from disk, then drop every index key with the `c + "/"` prefix and
finally `c` itself. -/
def DeleteCategory (fs : FSOracle) (papers : Papers) (c : String) :
    Option CatErr × Papers :=
  match goLookup papers.List c with
  | none => (some .categoryNotExist, papers)
  | some _ =>
    if fs.removeAll (goJoin papers.Path c) = false then
      (some .removeAllFailed, papers)
    else
      let pruned := papers.List.filter (fun kv => !goHasPfx kv.1 (c ++ "/"))
      (none, { papers with List := goErase pruned c })

/-- Embeds `MovePaper` (`crane.go` lines 356-391).  Notable points of the
source kept exactly: the destination-collision guard reads
`papers.List[c][p]` with the source key `p`, not the destination key; the
new entry is a pointer copy (`papers.List[c][newK] = papers.List[cPrev][p]`)
whose subsequent `PaperPath` / `MetaPath` field writes are visible through
both keys (hence `goSetEntry` on both); the source key is deleted only at
the very end, after the optional metadata rename. -/
def MovePaper (fs : FSOracle) (papers : Papers) (p c : String) :
    Option CatErr × Papers :=
  let cPrev := goDir p
  match goLookup papers.List cPrev with
  | none => (some .categoryNotExist, papers)
  | some mPrev =>
    match goLookup papers.List c with
    | none => (some .categoryNotExist, papers)
    | some mC =>
      match goLookup mPrev p with
      | none => (some .paperNotExist, papers)
      | some paper =>
        if (goLookup mC p).isSome then (some .paperExistsInDest, papers)
        else
          let paperDest :=
            goJoin (goJoin papers.Path c) (paper.PaperName ++ ".pdf")
          if fs.rename paper.PaperPath paperDest = false then
            (some .renamePaperFailed, papers)
          else
            let newK := goJoin c (goBase p)
            let paper1 : Paper := { paper with PaperPath := paperDest }
            let list1 := goSetEntry papers.List c newK paper
            let list2 :=
              goSetEntry (goSetEntry list1 c newK paper1) cPrev p paper1
            if paper.MetaPath ≠ "" then
              if fs.statExists paper.MetaPath then
                let metaDest := goJoin (goJoin papers.Path c)
                  (paper.PaperName ++ ".meta.xml")
                if fs.rename paper.MetaPath metaDest = false then
                  (some .renameMetaFailed, { papers with List := list2 })
                else
                  let paper2 : Paper := { paper1 with MetaPath := metaDest }
                  let list3 :=
                    goSetEntry (goSetEntry list2 c newK paper2) cPrev p paper2
                  (none, { papers with List := goDelEntry list3 cPrev p })
              else (none, { papers with List := goDelEntry list2 cPrev p })
            else (none, { papers with List := goDelEntry list2 cPrev p })

/-- Embeds `RenameCategory` (`crane.go` lines 395-419).  The source loops
only over `papers.List[c]` — the inner map of `c` itself — re-keying its
entries under `d` and rewriting their path fields; index keys that are
subcategories of `c` (prefix `c + "/"`) are not visited.  The loop's
map-assignment into `papers.List[d]` is modeled with `goInsert` folded in
list order. -/
def RenameCategory (fs : FSOracle) (papers : Papers) (c d : String) :
    Option CatErr × Papers :=
  match goLookup papers.List c with
  | none => (some .categoryNotExist, papers)
  | some m =>
    if (goLookup papers.List d).isSome then (some .categoryExists, papers)
    else if fs.rename (goJoin papers.Path c) (goJoin papers.Path d) = false
    then
      (some .renameDirFailed, papers)
    else
      let newInner := m.foldl
        (fun acc kv =>
          let v := kv.2
          let pK := goJoin d (goBase kv.1)
          let v1 : Paper := { v with
            PaperPath := goJoin papers.Path (goJoin d (v.PaperName ++ ".pdf")) }
          let v2 : Paper :=
            if v.MetaPath ≠ "" then
              { v1 with
                MetaPath :=
                  goJoin papers.Path (goJoin d (v.PaperName ++ ".meta.xml")) }
            else v1
          goInsert acc pK v2)
        []
      (none, { papers with List := goErase (goInsert papers.List d newInner) c })

/-! ## Stepwise evaluation lemmas for `getUniqueName` -/

theorem getUniqueNameAux_free {papers : Papers} {c name : String} {ext : Nat}
    (h : goLookup2 papers.List c (goJoin c (name ++ ".pdf")) = none) :
    getUniqueNameAux papers c name ext = name := by
  rw [getUniqueNameAux, h]

theorem getUniqueNameAux_coll {papers : Papers} {c name : String} {ext : Nat}
    {pr : Paper}
    (h : goLookup2 papers.List c (goJoin c (name ++ ".pdf")) = some pr) :
    getUniqueNameAux papers c name ext =
      getUniqueNameAux papers c (name ++ "-" ++ toString ext) (ext + 1) := by
  rw [getUniqueNameAux, h]

theorem getUniqueName_free {papers : Papers} {c name : String}
    (h : goLookup2 papers.List c (goJoin c (name ++ ".pdf")) = none) :
    getUniqueName papers c name = name := by
  rw [getUniqueName, getUniqueNameAux_free h]

/-! ## Acquisition commit (`NewPaperFromDirectLink` and `NewPaperFromDOI`,
`crane.go` lines 205-298)

The network fetches and temporary-file handling are abstracted by oracles:
`getMetaFromDOI` plus the XML decode either produce a `Meta` or fail;
`getPaper` and `renameFile` either succeed or fail.  The final index insert
`papers.List[c][...] = &p` is an assignment into `papers.List[c]`, which in
Go panics when that inner map is nil (category absent); likewise the
duplicate check dereferences the `*Paper` returned by a map read, which in
Go panics when it is nil.  Both panics are explicit outcomes here. -/

/-- One constructor per error-`return` site of the acquisition functions. -/
inductive AcqErr where
  | metaFetchFailed
  | duplicateDOI
  | paperFetchFailed
  | savePDFFailed
  | renamePDFFailed
  | renameMetaFailed
deriving DecidableEq

/-- Outcome of an embedded Go function that can return a value, return an
error, or panic at runtime. -/
inductive GoRes (α : Type) where
  | ok (a : α)
  | err (e : AcqErr)
  | panicked
deriving DecidableEq

/-- Oracle for one `NewPaperFromDOI` run: the metadata fetch/decode result
and the success of the paper fetch and the two `renameFile` calls. -/
structure DOIOracle where
  meta : Option Meta
  paperFetchOk : Bool
  renamePDFOk : Bool
  renameMetaOk : Bool

/-- Oracle for one `NewPaperFromDirectLink` run: `saveOk` collapses the
three temp-file error returns (`TempFile`, `saveRespBody`, `Close`), each of
which returns before any name computation or index access. -/
structure DLOracle where
  saveOk : Bool
  renamePDFOk : Bool

/-- Embeds `NewPaperFromDirectLink` (`crane.go` lines 205-231); `respName`
is the name candidate `getPaperFileNameFromResp(resp)` derived from the
HTTP response. -/
def NewPaperFromDirectLink (ora : DLOracle) (papers : Papers)
    (respName c : String) : GoRes Paper × Papers :=
  if ora.saveOk = false then (.err .savePDFFailed, papers)
  else
    let name := getUniqueName papers c respName
    let paper : Paper :=
      { PaperName := name,
        PaperPath := goJoin papers.Path (goJoin c (name ++ ".pdf")) }
    if ora.renamePDFOk = false then (.err .renamePDFFailed, papers)
    else
      match goLookup papers.List c with
      | none => (.panicked, papers)
      | some m =>
        (.ok paper, { papers with
          List := goInsert papers.List c
            (goInsert m (goJoin c (name ++ ".pdf")) paper) })

/-- Embeds `NewPaperFromDOI` (`crane.go` lines 235-298).  Kept exactly from
the source: the last-resort candidate computes
`n = strings.Replace(doi, "..", "", -1)` and then reassigns
`n = strings.Replace(doi, "/", "", -1)` from the raw `doi`, discarding the
first result (dead store `n1`); the duplicate check fires only when the
unique name differs from the candidate, and reads the existing entry
through a possibly nil `*Paper`. -/
def NewPaperFromDOI (ora : DOIOracle) (papers : Papers) (doi c : String) :
    GoRes Paper × Papers :=
  match ora.meta with
  | none => (.err .metaFetchFailed, papers)
  | some meta =>
    let n0 := getPaperFileNameFromMeta meta
    let n := if n0 = "" then
        let n1 := goReplace doi ".." ""
        let n2 := goReplace doi "/" ""
        let _ := n1
        n2
      else n0
    let u := getUniqueName papers c n
    let rest : GoRes Paper × Papers :=
      let paper : Paper :=
        { Meta := meta, PaperName := u,
          PaperPath := goJoin (goJoin papers.Path c) (u ++ ".pdf"),
          MetaPath := goJoin (goJoin papers.Path c) (u ++ ".meta.xml") }
      if ora.paperFetchOk = false then (.err .paperFetchFailed, papers)
      else if ora.renamePDFOk = false then (.err .renamePDFFailed, papers)
      else if ora.renameMetaOk = false then (.err .renameMetaFailed, papers)
      else
        match goLookup papers.List c with
        | none => (.panicked, papers)
        | some m =>
          (.ok paper, { papers with
            List := goInsert papers.List c
              (goInsert m (goJoin c (u ++ ".pdf")) paper) })
    if n ≠ u then
      match goLookup2 papers.List c (goJoin c (n ++ ".pdf")) with
      | none => (.panicked, papers)
      | some existing =>
        if meta.DOI = existing.Meta.DOI then (.err .duplicateDOI, papers)
        else rest
    else rest

/-! ## Filesystem transaction layer (`renameFile` / `copyFile`,
helper file lines 158-213)

Modeled over an explicit file system (path ↦ contents and mode) together
with an oracle for the fallible calls and a trace of the operations
performed, so that claims about operation ordering ("rename first",
"destination written before source removed") can be stated. -/

/-- One event per filesystem call the transaction layer can make.
`renameOS` stands for `os.Rename`, recorded so that a claim about
attempting a rename is statable. -/
inductive FSEvent where
  | openF (p : String)
  | create (p : String)
  | copyBytes
  | sync
  | statF (p : String)
  | chmod (p : String) (mode : Nat)
  | removeAllF (p : String)
  | renameOS (src dst : String)
deriving DecidableEq

/-- A file system: path ↦ (content bytes, permission mode). -/
structure FileSys where
  files : List (String × (List Nat × Nat))
deriving DecidableEq

/-- Success oracle for the fallible calls inside `copyFile` and
`renameFile`. -/
structure CopyOracle where
  createOk : Bool
  copyOk : Bool
  syncOk : Bool
  statOk : Bool
  chmodOk : Bool
  closeOk : Bool
  removeOk : Bool

/-- One constructor per error source of `copyFile` / `renameFile`. -/
inductive FileErr where
  | openFailed
  | createFailed
  | copyFailed
  | syncFailed
  | statFailed
  | chmodFailed
  | closeFailed
  | cleanupFailed
deriving DecidableEq

/-- Mode assigned by `os.Create` (0666) before the final chmod. -/
def createMode : Nat := 438

/-- Embeds `copyFile` (helper file lines 176-213): open `src`, create
(truncate) `dst`, copy the bytes, sync, stat `src`, chmod `dst` to the
source's mode.  The deferred `out.Close()` runs on every path after a
successful create and overwrites the returned error when it fails, exactly
as the source's named-return `defer` does. -/
def copyFile (ops : CopyOracle) (fs : FileSys) (src dst : String) :
    Option FileErr × FileSys × List FSEvent :=
  match goLookup fs.files src with
  | none => (some .openFailed, fs, [.openF src])
  | some (content, mode) =>
    if ops.createOk = false then
      (some .createFailed, fs, [.openF src, .create dst])
    else
      let closeAdj : FileErr → Option FileErr := fun e =>
        if ops.closeOk then some e else some .closeFailed
      let fs1 : FileSys := { files := goInsert fs.files dst ([], createMode) }
      if ops.copyOk = false then
        (closeAdj .copyFailed, fs1, [.openF src, .create dst, .copyBytes])
      else
        let fs2 : FileSys :=
          { files := goInsert fs1.files dst (content, createMode) }
        if ops.syncOk = false then
          (closeAdj .syncFailed, fs2,
            [.openF src, .create dst, .copyBytes, .sync])
        else if ops.statOk = false then
          (closeAdj .statFailed, fs2,
            [.openF src, .create dst, .copyBytes, .sync, .statF src])
        else if ops.chmodOk = false then
          (closeAdj .chmodFailed, fs2,
            [.openF src, .create dst, .copyBytes, .sync, .statF src,
              .chmod dst mode])
        else
          let fs3 : FileSys :=
            { files := goInsert fs2.files dst (content, mode) }
          (if ops.closeOk then none else some FileErr.closeFailed, fs3,
            [.openF src, .create dst, .copyBytes, .sync, .statF src,
              .chmod dst mode])

/-- Embeds `renameFile` (helper file lines 158-171): no-op when
`src == dst`, otherwise `copyFile` then `os.RemoveAll(src)`. -/
def renameFile (ops : CopyOracle) (fs : FileSys) (src dst : String) :
    Option FileErr × FileSys × List FSEvent :=
  if src = dst then (none, fs, [])
  else
    match copyFile ops fs src dst with
    | (some e, fs', evs) => (some e, fs', evs)
    | (none, fs', evs) =>
      if ops.removeOk then
        (none, { files := goErase fs'.files src }, evs ++ [.removeAllF src])
      else
        (some .cleanupFailed, fs', evs ++ [.removeAllF src])

/-- Recognizes an `os.Rename` attempt in a trace. -/
def isRenameEvent : FSEvent → Bool
  | .renameOS _ _ => true
  | _ => false

/-! ## Egress Guard (`isPrivateIP`, helper file lines 26-54)

IP addresses are embedded as either four IPv4 octets (the result of
`net.ParseIP` on dotted notation, as seen through `To4`) or sixteen IPv6
bytes.  `To4`, `IsLoopback`, `IsLinkLocalUnicast`, `IsLinkLocalMulticast`
and `IPNet.Contains` follow the Go standard library. -/

/-- An IP address as the classifier sees it. -/
inductive GoIP where
  | v4 (a b c d : Nat)
  | v6 (bytes : List Nat)
deriving DecidableEq

/-- Embeds `IP.To4` for the 16-byte form: a v4-mapped address
`::ffff:a.b.c.d` (ten zero bytes, then `0xff 0xff`) converts to its four
final bytes. -/
def to4 (bs : List Nat) : Option (List Nat) :=
  if bs.length = 16 ∧ bs.take 10 = List.replicate 10 0 ∧
      bs.get? 10 = some 255 ∧ bs.get? 11 = some 255 then
    some (bs.drop 12)
  else none

/-- The 16 bytes of `::1`. -/
def ipv6Loopback : List Nat := [0, 0, 0, 0, 0, 0, 0, 0, 0, 0, 0, 0, 0, 0, 0, 1]

/-- Embeds `IP.IsLoopback`. -/
def ipIsLoopback : GoIP → Bool
  | .v4 a _ _ _ => a == 127
  | .v6 bs =>
    match to4 bs with
    | some q =>
      match q with
      | a :: _ => a == 127
      | _ => false
    | none => bs == ipv6Loopback

/-- Embeds `IP.IsLinkLocalUnicast`. -/
def ipIsLinkLocalUnicast : GoIP → Bool
  | .v4 a b _ _ => a == 169 && b == 254
  | .v6 bs =>
    match to4 bs with
    | some q =>
      match q with
      | a :: b :: _ => a == 169 && b == 254
      | _ => false
    | none =>
      bs.length == 16 &&
        match bs with
        | b0 :: b1 :: _ => b0 == 254 && (b1 &&& 192) == 128
        | _ => false

/-- Embeds `IP.IsLinkLocalMulticast`. -/
def ipIsLinkLocalMulticast : GoIP → Bool
  | .v4 a b c _ => a == 224 && b == 0 && c == 0
  | .v6 bs =>
    match to4 bs with
    | some q =>
      match q with
      | a :: b :: c :: _ => a == 224 && b == 0 && c == 0
      | _ => false
    | none =>
      bs.length == 16 &&
        match bs with
        | b0 :: b1 :: _ => b0 == 255 && (b1 &&& 15) == 2
        | _ => false

/-- Byte-wise masked comparison used by `IPNet.Contains`:
`nn[i]&m[i] == ip[i]&m[i]` for every position. -/
def maskedEq : List Nat → List Nat → List Nat → Bool
  | [], [], [] => true
  | n :: ns, m :: ms, i :: js => ((n &&& m) == (i &&& m)) && maskedEq ns ms js
  | _, _, _ => false

/-- Embeds `IPNet.Contains`: convert the address with `To4` when possible,
require equal lengths, then compare under the mask. -/
def cidrContains (netBytes maskBytes : List Nat) (ip : GoIP) : Bool :=
  let ipb : List Nat :=
    match ip with
    | .v4 a b c d => [a, b, c, d]
    | .v6 bs =>
      match to4 bs with
      | some q => q
      | none => bs
  if ipb.length = netBytes.length then maskedEq netBytes maskBytes ipb
  else false

/-- Embeds the `privateIPBlocks` CIDR list (helper file lines 28-37), each
entry as (masked network bytes, mask bytes) exactly as `net.ParseCIDR`
produces them. -/
def privateIPBlocks : List (List Nat × List Nat) :=
  [([127, 0, 0, 0], [255, 0, 0, 0]),
   ([10, 0, 0, 0], [255, 0, 0, 0]),
   ([172, 16, 0, 0], [255, 240, 0, 0]),
   ([192, 168, 0, 0], [255, 255, 0, 0]),
   ([169, 254, 0, 0], [255, 255, 0, 0]),
   (ipv6Loopback, List.replicate 16 255),
   ([254, 128, 0, 0, 0, 0, 0, 0, 0, 0, 0, 0, 0, 0, 0, 0],
     [255, 192, 0, 0, 0, 0, 0, 0, 0, 0, 0, 0, 0, 0, 0, 0]),
   ([252, 0, 0, 0, 0, 0, 0, 0, 0, 0, 0, 0, 0, 0, 0, 0],
     [254, 0, 0, 0, 0, 0, 0, 0, 0, 0, 0, 0, 0, 0, 0, 0])]

/-- Embeds `isPrivateIP` (helper file lines 26-54): loopback, link-local
unicast or multicast, or membership in any configured private block. -/
def isPrivateIP (ip : GoIP) : Bool :=
  ipIsLoopback ip || ipIsLinkLocalUnicast ip || ipIsLinkLocalMulticast ip ||
    privateIPBlocks.any (fun blk => cidrContains blk.1 blk.2 ip)


/-! ## Concrete states used by the per-claim theorems -/

/-- Oracle on which every filesystem call succeeds. -/
def fsAllOk : FSOracle :=
  { rename := fun _ _ => true, statExists := fun _ => true,
    remove := fun _ => true, removeAll := fun _ => true }

/-- A paper stored as `a/x.pdf` under root `/r`, without sidecar. -/
def paperAX : Paper := { PaperName := "x", PaperPath := "/r/a/x.pdf" }

/-- A paper stored as `a/b/y.pdf` under root `/r` (category `a/b`). -/
def paperABY : Paper := { PaperName := "y", PaperPath := "/r/a/b/y.pdf" }

/-- Catalog with category `a` (one document) and subcategory `a/b`
(one document). -/
def stSub : Papers :=
  { List := [("a", [("a/x.pdf", paperAX)]), ("a/b", [("a/b/y.pdf", paperABY)])],
    Path := "/r" }

/-- A distinct paper already stored at the destination key `b/x.pdf`
(distinguishable by its title). -/
def paperBX : Paper :=
  { Meta := { Title := "victim" }, PaperName := "x", PaperPath := "/r/b/x.pdf" }

/-- Catalog with `a/x.pdf` and a destination category `b` already holding
`b/x.pdf`. -/
def stOverwrite : Papers :=
  { List := [("a", [("a/x.pdf", paperAX)]), ("b", [("b/x.pdf", paperBX)])],
    Path := "/r" }

/-- A paper with a metadata sidecar, stored as `a/x.pdf`. -/
def paperAXMeta : Paper :=
  { PaperName := "x", PaperPath := "/r/a/x.pdf",
    MetaPath := "/r/a/x.meta.xml" }

/-- Catalog with `a/x.pdf` (with sidecar) and an empty category `b`. -/
def stMove : Papers :=
  { List := [("a", [("a/x.pdf", paperAXMeta)]), ("b", [])], Path := "/r" }

/-- Oracle on which only the paper-file rename succeeds: the subsequent
metadata-sidecar rename fails. -/
def fsMetaRenameFails : FSOracle :=
  { rename := fun s _ => s = "/r/a/x.pdf", statExists := fun _ => true,
    remove := fun _ => true, removeAll := fun _ => true }

/-- Catalog in which both `a/x.pdf` and `a/x-2.pdf` are taken. -/
def stProbe : Papers :=
  { List := [("a", [("a/x.pdf", paperAX),
      ("a/x-2.pdf", { PaperName := "x-2", PaperPath := "/r/a/x-2.pdf" })])],
    Path := "/r" }

/-! ## Claim C1 -/

/-- C1: refuted on the code (code bug).  In the catalog `stSub` (category
`a` plus subcategory `a/b`), `RenameCategory("a", "c")` succeeds, yet the
subcategory key `a/b` is still present, its document is still keyed
`a/b/y.pdf` with its `PaperPath` still under the old `/r/a/b/` directory —
although the directory rename moved the file on disk — and no `c/b`
category exists.  The spec's claim that every `C/`-prefixed key is re-keyed
under `D` with rewritten path fields in the same call is false. -/
theorem C1_renameCategory_leaves_subcategory_keys :
    (RenameCategory fsAllOk stSub "a" "c").1 = none ∧
    goLookup (RenameCategory fsAllOk stSub "a" "c").2.List "a/b" =
      some [("a/b/y.pdf", paperABY)] ∧
    goLookup (RenameCategory fsAllOk stSub "a" "c").2.List "c/b" = none ∧
    paperABY.PaperPath = "/r/a/b/y.pdf" := by
  decide

/-! ## Claim C3 -/

/-- C3: refuted on the code (code bug).  For a `first`-sequence contributor
with last name `"do..e"` and publication year `"2020"`, the metadata-based
name candidate is `"do..e2020"`: the `".."` sequence survives because the
source's second `strings.Replace` call reads the original `LastName` again,
overwriting the result of the `".."` removal (and the year is treated the
same way). -/
theorem C3_metaName_keeps_dotdot :
    getPaperFileNameFromMeta
        { Contributors := [{ LastName := "do..e", Sequence := "first" }],
          PubYear := "20..20" } = "do..e20..20" ∧
    strContains "do..e20..20" ".." = true := by
  decide

/-! ## Claim C5 -/

/-- C5: refuted on the code (code bug).  With `b/x.pdf` already present in
the destination category, `MovePaper("a/x.pdf", "b")` succeeds (returns no
error) and silently replaces the existing destination document: the guard
reads `papers.List[c][p]` with the source key `p`, which can never be a key
of the destination category.  The pre-existing document (title `victim`)
is gone from the index afterwards. -/
theorem C5_movePaper_silent_overwrite :
    (MovePaper fsAllOk stOverwrite "a/x.pdf" "b").1 = none ∧
    goLookup2 (MovePaper fsAllOk stOverwrite "a/x.pdf" "b").2.List
        "b" "b/x.pdf" =
      some { PaperName := "x", PaperPath := "/r/b/x.pdf" } ∧
    goLookup2 stOverwrite.List "b" "b/x.pdf" = some paperBX ∧
    paperBX.Meta.Title = "victim" := by
  decide

/-! ## Claim C4 -/

/-- C4 counterexample: with both `x` and `x-2` taken in category `a`,
`getUniqueName` returns `"x-2-3"`, not the `"x-3"` the claim requires: the
suffix is appended to the previously probed name, not to the original
candidate. -/
theorem C4_counterexample_probe_sequence :
    getUniqueName stProbe "a" "x" = "x-2-3" ∧ "x-2-3" ≠ "x-3" := by
  constructor
  · rw [getUniqueName,
      getUniqueNameAux_coll
        (show goLookup2 stProbe.List "a" (goJoin "a" ("x" ++ ".pdf")) =
          some paperAX by decide),
      getUniqueNameAux_coll
        (show goLookup2 stProbe.List "a"
            (goJoin "a" (("x" ++ "-" ++ toString 2) ++ ".pdf")) =
          some { PaperName := "x-2", PaperPath := "/r/a/x-2.pdf" } by decide),
      getUniqueNameAux_free (by decide)]
    decide
  · decide

/-- C4 amended: `getUniqueName(c, n)` probes the sequence `n`, `n-2`,
`n-2-3`, `n-2-3-4`, … — each suffix appended to the previously probed name —
and returns the first member of that sequence whose document key is free in
`c`; e.g. when both `n` and `n-2` are taken it returns `n-2-3`. -/
theorem C4_amended_first_free_probe (papers : Papers) (c name : String) :
    ∃ i, getUniqueName papers c name = probes name i ∧
      (∀ t, t < i → taken papers c (probes name t) = true) ∧
      taken papers c (probes name i) = false :=
  getUniqueName_probes papers c name


/-- C4 amended, witness: the characterization instantiated at the concrete
catalog `stProbe`. -/
theorem C4_amended_first_free_probe_witness :
    ∃ i, getUniqueName stProbe "a" "x" = probes "x" i ∧
      (∀ t, t < i → taken stProbe "a" (probes "x" t) = true) ∧
      taken stProbe "a" (probes "x" i) = false :=
  C4_amended_first_free_probe stProbe "a" "x"

/-! ## Claim C2 -/

/-- C2 counterexample: in `stMove` (paper `a/x.pdf` with sidecar, empty
category `b`), under the oracle where the paper-file rename succeeds but the
metadata-sidecar rename fails, `MovePaper("a/x.pdf", "b")` returns an error
yet the index has been mutated: the destination key `b/x.pdf` now exists
(and the shared document's `PaperPath` was rewritten), while before the call
it did not.  So an erroring call can leave a partial mutation, contradicting
the claim. -/
theorem C2_counterexample_movePaper_partial_mutation :
    (MovePaper fsMetaRenameFails stMove "a/x.pdf" "b").1 =
      some CatErr.renameMetaFailed ∧
    (MovePaper fsMetaRenameFails stMove "a/x.pdf" "b").2 ≠ stMove ∧
    goLookup2 (MovePaper fsMetaRenameFails stMove "a/x.pdf" "b").2.List
        "b" "b/x.pdf" =
      some { PaperName := "x", PaperPath := "/r/b/x.pdf",
             MetaPath := "/r/a/x.meta.xml" } ∧
    goLookup2 stMove.List "b" "b/x.pdf" = none := by
  decide

/-- C2 amended: every erroring `DeletePaper`, `DeleteCategory` or
`RenameCategory` call leaves the state exactly as before; an erroring
`MovePaper` call does too unless the rename of the paper file itself
succeeded (after which only the metadata-sidecar rename can fail) — in that
single case the index is left partially mutated, as the counterexample
shows. -/
theorem C2_amended_error_atomicity (fs : FSOracle) (st : Papers)
    (p c d e : String) :
    ((DeletePaper fs st p).1 ≠ none → (DeletePaper fs st p).2 = st) ∧
    ((DeleteCategory fs st d).1 ≠ none → (DeleteCategory fs st d).2 = st) ∧
    ((RenameCategory fs st d e).1 ≠ none → (RenameCategory fs st d e).2 = st) ∧
    ((MovePaper fs st p c).1 ≠ none →
      (MovePaper fs st p c).2 = st ∨
      ∃ pr, goLookup2 st.List (goDir p) p = some pr ∧
        fs.rename pr.PaperPath
          (goJoin (goJoin st.Path c) (pr.PaperName ++ ".pdf")) = true) := by
  refine ⟨?_, ?_, ?_, ?_⟩
  · unfold DeletePaper
    cases hm : goLookup st.List (goDir p) with
    | none => simp [hm]
    | some m =>
      simp only [hm]
      cases hp : goLookup m p with
      | none => simp [hp]
      | some paper =>
        simp only [hp]
        split_ifs <;> simp_all
  · unfold DeleteCategory
    cases hm : goLookup st.List d with
    | none => simp [hm]
    | some m =>
      simp only [hm]
      split_ifs <;> simp_all
  · unfold RenameCategory
    cases hm : goLookup st.List d with
    | none => simp [hm]
    | some m =>
      simp only [hm]
      split_ifs <;> simp_all
  · unfold MovePaper
    cases hm1 : goLookup st.List (goDir p) with
    | none => simp [hm1]
    | some mPrev =>
      simp only [hm1]
      cases hm2 : goLookup st.List c with
      | none => simp
      | some mC =>
        simp only [hm2]
        cases hp : goLookup mPrev p with
        | none => simp
        | some paper =>
          simp only [hp]
          split_ifs <;> simp_all [goLookup2]

/-- C2 amended, witness: a concrete erroring `DeletePaper` call (category
absent) leaves the empty catalog unchanged. -/
theorem C2_amended_error_atomicity_witness :
    (DeletePaper fsAllOk { List := [], Path := "/r" } "a/x.pdf").1 ≠ none ∧
    (DeletePaper fsAllOk { List := [], Path := "/r" } "a/x.pdf").2 =
      { List := [], Path := "/r" } :=
  ⟨by decide,
    (C2_amended_error_atomicity fsAllOk { List := [], Path := "/r" }
      "a/x.pdf" "b" "c" "d").1 (by decide)⟩

/-! ## Claim C6 -/

/-- Direct-link oracle on which every step succeeds. -/
def dlOK : DLOracle := { saveOk := true, renamePDFOk := true }

/-- Catalog with a single, empty category `a`. -/
def stOneCat : Papers := { List := [("a", [])], Path := "/r" }

/-- C6 counterexample: committing a new document into a category `a` that
has no inner mapping in the index does not create it — the final insert
`papers.List[c][...] = &p` is an assignment into a nil map, a Go runtime
panic.  The acquisition neither succeeds nor creates the category. -/
theorem C6_counterexample_insert_panics_on_absent_category :
    (NewPaperFromDirectLink dlOK { List := [], Path := "/r" } "report" "a").1 =
      GoRes.panicked ∧
    (NewPaperFromDirectLink dlOK { List := [], Path := "/r" } "report" "a").2 =
      { List := [], Path := "/r" } := by
  constructor <;>
    simp [NewPaperFromDirectLink, dlOK, goLookup]

/-- C6 amended: the commit insert succeeds — adding the document under the
unique name's key — exactly when the category's inner mapping already
exists; it does not create an absent inner mapping (on an absent category
it panics, per the counterexample). -/
theorem C6_amended_commit_requires_existing_category
    (ora : DLOracle) (st : Papers) (respName c : String)
    (m : List (String × Paper))
    (hm : goLookup st.List c = some m)
    (hsave : ora.saveOk = true) (hren : ora.renamePDFOk = true) :
    (NewPaperFromDirectLink ora st respName c).1 =
      GoRes.ok { PaperName := getUniqueName st c respName,
                 PaperPath := goJoin st.Path
                   (goJoin c (getUniqueName st c respName ++ ".pdf")) } ∧
    (NewPaperFromDirectLink ora st respName c).2 =
      { st with
          List := goInsert st.List c
            (goInsert m (goJoin c (getUniqueName st c respName ++ ".pdf"))
              { PaperName := getUniqueName st c respName,
                PaperPath := goJoin st.Path
                  (goJoin c (getUniqueName st c respName ++ ".pdf")) }) } := by
  constructor <;> simp [NewPaperFromDirectLink, hm, hsave, hren]

/-- C6 amended, witness: with category `a` present (empty inner mapping),
the commit succeeds and stores `a/report.pdf`. -/
theorem C6_amended_commit_witness :
    (NewPaperFromDirectLink dlOK stOneCat "report" "a").1 =
      GoRes.ok { PaperName := "report", PaperPath := "/r/a/report.pdf" } := by
  have h := (C6_amended_commit_requires_existing_category dlOK stOneCat
    "report" "a" [] (by decide) rfl rfl).1
  rw [h, getUniqueName_free (by decide)]
  decide

/-! ## Helper lemmas for the duplicate-identifier claim -/

theorem goLookup_goInsert_self {α : Type} (l : List (String × α))
    (k : String) (v : α) : goLookup (goInsert l k v) k = some v := by
  induction l with
  | nil => simp [goInsert, goLookup]
  | cons kv rest ih =>
    by_cases hk : kv.1 = k
    · simp [goInsert, goLookup, hk]
    · simp [goInsert, goLookup, hk, ih]

theorem goInsert_append_of_absent {α : Type} {l : List (String × α)}
    {k : String} (v : α) (h : goLookup l k = none) :
    goInsert l k v = l ++ [(k, v)] := by
  induction l with
  | nil => simp [goInsert]
  | cons kv rest ih =>
    by_cases hk : kv.1 = k
    · rw [goLookup] at h
      simp [hk] at h
    · rw [goLookup] at h
      simp only [hk, if_false] at h
      simp [goInsert, hk, ih h]

theorem probes_length_lt (name : String) (i : Nat) :
    name.length < (probes name (i + 1)).length := by
  induction i with
  | zero =>
    rw [probes, probes]
    simp only [String.length_append]
    have : ("-" : String).length = 1 := by decide
    omega
  | succ i ih =>
    rw [probes]
    simp only [String.length_append]
    have : ("-" : String).length = 1 := by decide
    omega

theorem getUniqueName_ne_of_taken {papers : Papers} {c name : String}
    (h : taken papers c name = true) :
    getUniqueName papers c name ≠ name := by
  obtain ⟨i, h1, _, h3⟩ := getUniqueName_probes papers c name
  cases i with
  | zero =>
    rw [show probes name 0 = name from rfl] at h3
    rw [h] at h3
    exact absurd h3 (by simp)
  | succ i =>
    rw [h1]
    intro he
    have := probes_length_lt name i
    rw [he] at this
    omega

/-- Number of documents in an inner map whose metadata identifier is `d`. -/
def countDOI (m : List (String × Paper)) (d : String) : Nat :=
  (m.filter (fun kv => kv.2.Meta.DOI == d)).length

/-- Inner map of category `c` (empty for an absent category); used to state
entry counts. -/
def catInner (st : Papers) (c : String) : List (String × Paper) :=
  (goLookup st.List c).getD []

theorem countDOI_insert_absent {m : List (String × Paper)} {k : String}
    {v : Paper} {d : String} (hk : goLookup m k = none)
    (hv : v.Meta.DOI = d) (h0 : countDOI m d = 0) :
    countDOI (goInsert m k v) d = 1 := by
  rw [goInsert_append_of_absent v hk]
  unfold countDOI at h0 ⊢
  rw [List.filter_append, List.length_append, h0]
  simp [hv]

/-! ## Claim C7 -/

/-- C7: confirmed.  Starting from a catalog whose category `c` exists and
holds no entry for the identifier (and whose metadata-derived name candidate
is free), a first identifier-based acquisition succeeds and leaves exactly
one entry carrying that identifier in `c`; a second acquisition resolving to
the same Metadata finds the candidate's key taken, sees that the colliding
entry's identifier matches, and fails with the duplicate-identifier error
before any download commit, leaving the catalog state — and hence the
single entry for the identifier — unchanged. -/
theorem C7_duplicate_doi_second_request_fails
    (meta : Meta) (st : Papers) (doi c : String)
    (m : List (String × Paper)) (ora1 ora2 : DOIOracle)
    (hm : goLookup st.List c = some m)
    (hn : getPaperFileNameFromMeta meta ≠ "")
    (hfree : goLookup m
      (goJoin c (getPaperFileNameFromMeta meta ++ ".pdf")) = none)
    (hdoi0 : countDOI m meta.DOI = 0)
    (h1meta : ora1.meta = some meta) (h1f : ora1.paperFetchOk = true)
    (h1r : ora1.renamePDFOk = true) (h1rm : ora1.renameMetaOk = true)
    (h2meta : ora2.meta = some meta) :
    (∃ p1, (NewPaperFromDOI ora1 st doi c).1 = GoRes.ok p1) ∧
    countDOI (catInner (NewPaperFromDOI ora1 st doi c).2 c) meta.DOI = 1 ∧
    (NewPaperFromDOI ora2 (NewPaperFromDOI ora1 st doi c).2 doi c).1 =
      GoRes.err AcqErr.duplicateDOI ∧
    (NewPaperFromDOI ora2 (NewPaperFromDOI ora1 st doi c).2 doi c).2 =
      (NewPaperFromDOI ora1 st doi c).2 := by
  have hfree2 : goLookup2 st.List c
      (goJoin c (getPaperFileNameFromMeta meta ++ ".pdf")) = none := by
    simp [goLookup2, hm, hfree]
  have hu1 : getUniqueName st c (getPaperFileNameFromMeta meta) =
      getPaperFileNameFromMeta meta := getUniqueName_free hfree2
  have hr1 : NewPaperFromDOI ora1 st doi c =
      (GoRes.ok
        ⟨meta,
         goJoin (goJoin st.Path c) (getPaperFileNameFromMeta meta ++ ".meta.xml"),
         getPaperFileNameFromMeta meta,
         goJoin (goJoin st.Path c) (getPaperFileNameFromMeta meta ++ ".pdf")⟩,
       ⟨goInsert st.List c
          (goInsert m (goJoin c (getPaperFileNameFromMeta meta ++ ".pdf"))
            ⟨meta,
             goJoin (goJoin st.Path c)
               (getPaperFileNameFromMeta meta ++ ".meta.xml"),
             getPaperFileNameFromMeta meta,
             goJoin (goJoin st.Path c) (getPaperFileNameFromMeta meta ++ ".pdf")⟩),
        st.Path⟩) := by
    simp [NewPaperFromDOI, h1meta, hn, hu1, h1f, h1r, h1rm, hm]
  rw [hr1]
  refine ⟨⟨_, rfl⟩, ?_, ?_, ?_⟩
  · simp only [catInner, goLookup_goInsert_self, Option.getD_some]
    exact countDOI_insert_absent hfree rfl hdoi0
  · have htk2 : goLookup2
        (goInsert st.List c
          (goInsert m (goJoin c (getPaperFileNameFromMeta meta ++ ".pdf"))
            ⟨meta,
             goJoin (goJoin st.Path c)
               (getPaperFileNameFromMeta meta ++ ".meta.xml"),
             getPaperFileNameFromMeta meta,
             goJoin (goJoin st.Path c)
               (getPaperFileNameFromMeta meta ++ ".pdf")⟩))
        c (goJoin c (getPaperFileNameFromMeta meta ++ ".pdf")) =
        some ⟨meta,
          goJoin (goJoin st.Path c)
            (getPaperFileNameFromMeta meta ++ ".meta.xml"),
          getPaperFileNameFromMeta meta,
          goJoin (goJoin st.Path c)
            (getPaperFileNameFromMeta meta ++ ".pdf")⟩ := by
      simp [goLookup2, goLookup_goInsert_self]
    have htkn : taken ⟨goInsert st.List c
        (goInsert m (goJoin c (getPaperFileNameFromMeta meta ++ ".pdf"))
          ⟨meta,
           goJoin (goJoin st.Path c)
             (getPaperFileNameFromMeta meta ++ ".meta.xml"),
           getPaperFileNameFromMeta meta,
           goJoin (goJoin st.Path c)
             (getPaperFileNameFromMeta meta ++ ".pdf")⟩),
        st.Path⟩ c (getPaperFileNameFromMeta meta) = true := by
      simp only [taken, htk2, Option.isSome_some]
    have hne2 := getUniqueName_ne_of_taken htkn
    simp [NewPaperFromDOI, h2meta, hn, Ne.symm hne2, htk2]
  · have htk2 : goLookup2
        (goInsert st.List c
          (goInsert m (goJoin c (getPaperFileNameFromMeta meta ++ ".pdf"))
            ⟨meta,
             goJoin (goJoin st.Path c)
               (getPaperFileNameFromMeta meta ++ ".meta.xml"),
             getPaperFileNameFromMeta meta,
             goJoin (goJoin st.Path c)
               (getPaperFileNameFromMeta meta ++ ".pdf")⟩))
        c (goJoin c (getPaperFileNameFromMeta meta ++ ".pdf")) =
        some ⟨meta,
          goJoin (goJoin st.Path c)
            (getPaperFileNameFromMeta meta ++ ".meta.xml"),
          getPaperFileNameFromMeta meta,
          goJoin (goJoin st.Path c)
            (getPaperFileNameFromMeta meta ++ ".pdf")⟩ := by
      simp [goLookup2, goLookup_goInsert_self]
    have htkn : taken ⟨goInsert st.List c
        (goInsert m (goJoin c (getPaperFileNameFromMeta meta ++ ".pdf"))
          ⟨meta,
           goJoin (goJoin st.Path c)
             (getPaperFileNameFromMeta meta ++ ".meta.xml"),
           getPaperFileNameFromMeta meta,
           goJoin (goJoin st.Path c)
             (getPaperFileNameFromMeta meta ++ ".pdf")⟩),
        st.Path⟩ c (getPaperFileNameFromMeta meta) = true := by
      simp only [taken, htk2, Option.isSome_some]
    have hne2 := getUniqueName_ne_of_taken htkn
    simp [NewPaperFromDOI, h2meta, hn, Ne.symm hne2, htk2]

/-- Metadata record used by the C7 witness. -/
def metaW : Meta :=
  { Contributors := [{ LastName := "Doe", Sequence := "first" }],
    PubYear := "2020", DOI := "10.1/x" }

/-- All-success DOI oracle resolving to `metaW`. -/
def oraW : DOIOracle :=
  { meta := some metaW, paperFetchOk := true, renamePDFOk := true,
    renameMetaOk := true }

/-- C7 witness: at the concrete catalog `stOneCat` with identifier
`10.1/x`, the second identical request fails with the duplicate error. -/
theorem C7_duplicate_doi_witness :
    (NewPaperFromDOI oraW
      (NewPaperFromDOI oraW stOneCat "10.1/x" "a").2 "10.1/x" "a").1 =
      GoRes.err AcqErr.duplicateDOI :=
  (C7_duplicate_doi_second_request_fails metaW stOneCat "10.1/x" "a" []
    oraW oraW (by decide) (by decide) (by decide) (by decide)
    rfl rfl rfl rfl rfl).2.2.1

/-! ## Claim C10 -/

/-- C10: `getUniqueName` terminates on every catalog (its recursion is
well-founded because each successive probe strictly lengthens the probed
key, so only the finitely many existing keys can collide), and the loop
always exits at a probe whose key is free in the category. -/
theorem C10_getUniqueName_terminates (papers : Papers) (c name : String) :
    ∃ i, getUniqueName papers c name = probes name i ∧
      goLookup2 papers.List c
        (goJoin c (getUniqueName papers c name ++ ".pdf")) = none := by
  obtain ⟨i, h1, _, h3⟩ := getUniqueName_probes papers c name
  refine ⟨i, h1, ?_⟩
  rw [h1]
  unfold taken at h3
  simpa using h3

/-- C10 witness: termination and a free final key at the concrete catalog
`stProbe`. -/
theorem C10_getUniqueName_terminates_witness :
    ∃ i, getUniqueName stProbe "a" "x" = probes "x" i ∧
      goLookup2 stProbe.List "a"
        (goJoin "a" (getUniqueName stProbe "a" "x" ++ ".pdf")) = none :=
  C10_getUniqueName_terminates stProbe "a" "x"

/-! ## Claim C8 -/

theorem goLookup_goInsert_ne {α : Type} {l : List (String × α)}
    {k k2 : String} (v : α) (h : k2 ≠ k) :
    goLookup (goInsert l k v) k2 = goLookup l k2 := by
  induction l with
  | nil => simp [goInsert, goLookup, Ne.symm h]
  | cons kv rest ih =>
    by_cases hk : kv.1 = k
    · simp [goInsert, goLookup, hk, Ne.symm h]
    · simp [goInsert, goLookup, hk, ih]

theorem goLookup_goErase_self_of_nodup {α : Type} {l : List (String × α)}
    {k : String} (h : (l.map Prod.fst).Nodup) :
    goLookup (goErase l k) k = none := by
  induction l with
  | nil => simp [goErase, goLookup]
  | cons kv rest ih =>
    simp only [List.map_cons, List.nodup_cons] at h
    by_cases hk : kv.1 = k
    · rw [goErase, if_pos hk]
      subst hk
      cases hl : goLookup rest kv.1 with
      | none => rfl
      | some v => exact absurd (goLookup_mem hl) h.1
    · rw [goErase, if_neg hk, goLookup, if_neg hk]
      exact ih h.2

theorem goLookup_goErase_ne {α : Type} {l : List (String × α)}
    {k k2 : String} (h : k2 ≠ k) :
    goLookup (goErase l k) k2 = goLookup l k2 := by
  induction l with
  | nil => simp [goErase]
  | cons kv rest ih =>
    by_cases hk : kv.1 = k
    · rw [goErase, if_pos hk, goLookup, if_neg (by rw [hk]; exact Ne.symm h)]
    · rw [goErase, if_neg hk, goLookup, goLookup]
      by_cases hk2 : kv.1 = k2
      · simp [hk2]
      · simp [hk2, ih]

theorem mem_keys_goInsert {α : Type} {l : List (String × α)}
    {k : String} {v : α} {x : String}
    (h : x ∈ (goInsert l k v).map Prod.fst) :
    x ∈ l.map Prod.fst ∨ x = k := by
  induction l with
  | nil => simp [goInsert] at h; exact Or.inr h
  | cons kv rest ih =>
    by_cases hk : kv.1 = k
    · rw [goInsert, if_pos hk] at h
      simp only [List.map_cons, List.mem_cons] at h ⊢
      rcases h with h | h
      · exact Or.inl (Or.inl h)
      · exact Or.inl (Or.inr h)
    · rw [goInsert, if_neg hk] at h
      simp only [List.map_cons, List.mem_cons] at h ⊢
      rcases h with h | h
      · exact Or.inl (Or.inl h)
      · rcases ih h with h2 | h2
        · exact Or.inl (Or.inr h2)
        · exact Or.inr h2

theorem goInsert_keys_nodup {α : Type} {l : List (String × α)}
    {k : String} {v : α} (h : (l.map Prod.fst).Nodup) :
    ((goInsert l k v).map Prod.fst).Nodup := by
  induction l with
  | nil => simp [goInsert]
  | cons kv rest ih =>
    simp only [List.map_cons, List.nodup_cons] at h
    by_cases hk : kv.1 = k
    · rw [goInsert, if_pos hk]
      simp only [List.map_cons, List.nodup_cons]
      exact ⟨h.1, h.2⟩
    · rw [goInsert, if_neg hk]
      simp only [List.map_cons, List.nodup_cons]
      refine ⟨fun hmem => ?_, ih h.2⟩
      rcases mem_keys_goInsert hmem with h2 | h2
      · exact h.1 h2
      · exact hk h2

/-- Copy oracle on which every call succeeds. -/
def opsAll : CopyOracle :=
  { createOk := true, copyOk := true, syncOk := true, statOk := true,
    chmodOk := true, closeOk := true, removeOk := true }

/-- Single-file filesystem used by the C8 theorems. -/
def fs8 : FileSys := { files := [("a", ([1, 2, 3], 420))] }

/-- C8 counterexample: on a same-device move (source present, every call
able to succeed), `renameFile` performs no `os.Rename` at all — its trace
contains no rename event — and instead byte-copies the file; the claim that
a same-device rename is attempted first and the copy is only a cross-device
fallback is false: the function always copies and deletes. -/
theorem C8_counterexample_no_rename_attempted :
    (renameFile opsAll fs8 "a" "b").2.2.filter isRenameEvent = [] ∧
    FSEvent.copyBytes ∈ (renameFile opsAll fs8 "a" "b").2.2 ∧
    (renameFile opsAll fs8 "a" "b").1 = none := by decide

theorem copyFile_no_rename (ops : CopyOracle) (fs : FileSys)
    (src dst : String) :
    (copyFile ops fs src dst).2.2.filter isRenameEvent = [] := by
  unfold copyFile
  cases hL : goLookup fs.files src with
  | none => simp [isRenameEvent]
  | some v =>
    obtain ⟨content, mode⟩ := v
    split_ifs <;> simp [isRenameEvent]

theorem copyFile_preserves_other (ops : CopyOracle) (fs : FileSys)
    (src dst p : String) (hp : p ≠ dst) :
    goLookup (copyFile ops fs src dst).2.1.files p = goLookup fs.files p := by
  unfold copyFile
  cases hL : goLookup fs.files src with
  | none => rfl
  | some v =>
    obtain ⟨content, mode⟩ := v
    split_ifs <;> simp [goLookup_goInsert_ne _ hp]

theorem copyFile_ok_files (ops : CopyOracle) (fs : FileSys)
    (src dst : String) (content : List Nat) (mode : Nat)
    (hsrc : goLookup fs.files src = some (content, mode))
    (hok : (copyFile ops fs src dst).1 = none) :
    (copyFile ops fs src dst).2.1.files =
      goInsert (goInsert (goInsert fs.files dst ([], createMode)) dst
        (content, createMode)) dst (content, mode) := by
  unfold copyFile at hok ⊢
  rw [hsrc] at hok ⊢
  split_ifs at hok ⊢
  all_goals simp_all

/-- C8 amended: `renameFile(src, dst)` never attempts a rename: it returns
immediately when `src = dst` and otherwise always byte-copies `src` to
`dst` — preserving the source's file mode — and then deletes `src`.  The
remaining guarantees of the claim hold: the destination is fully written
and mode-matched before the source is removed (a cleanup failure leaves two
intact copies), and a failure during the copy leaves the source
untouched. -/
theorem C8_amended_copy_then_delete (ops : CopyOracle) (fs : FileSys)
    (src dst : String) (content : List Nat) (mode : Nat)
    (hsrc : goLookup fs.files src = some (content, mode))
    (hnd : (fs.files.map Prod.fst).Nodup) :
    (src = dst → renameFile ops fs src dst = (none, fs, [])) ∧
    ((renameFile ops fs src dst).2.2.filter isRenameEvent = []) ∧
    (src ≠ dst → (copyFile ops fs src dst).1 ≠ none →
      goLookup (renameFile ops fs src dst).2.1.files src =
        some (content, mode)) ∧
    (src ≠ dst → (copyFile ops fs src dst).1 = none →
      goLookup (copyFile ops fs src dst).2.1.files dst =
        some (content, mode) ∧
      goLookup (renameFile ops fs src dst).2.1.files dst =
        some (content, mode) ∧
      (ops.removeOk = true →
        (renameFile ops fs src dst).1 = none ∧
        goLookup (renameFile ops fs src dst).2.1.files src = none) ∧
      (ops.removeOk = false →
        (renameFile ops fs src dst).1 = some FileErr.cleanupFailed ∧
        goLookup (renameFile ops fs src dst).2.1.files src =
          some (content, mode))) := by
  by_cases hsd : src = dst
  · subst hsd
    refine ⟨fun _ => by simp [renameFile], by simp [renameFile], ?_, ?_⟩
    · intro h; exact absurd rfl h
    · intro h; exact absurd rfl h
  · refine ⟨fun h => absurd h hsd, ?_, ?_, ?_⟩
    · rcases hcf : copyFile ops fs src dst with ⟨e, fs2, evs⟩
      have hevs : evs.filter isRenameEvent = [] := by
        have := copyFile_no_rename ops fs src dst
        rw [hcf] at this
        exact this
      cases e with
      | some err => simp [renameFile, hsd, hcf, hevs]
      | none =>
        by_cases hro : ops.removeOk <;>
          simp [renameFile, hsd, hcf, hro, List.filter_append, hevs,
            isRenameEvent]
    · intro _ herr
      rcases hcf : copyFile ops fs src dst with ⟨e, fs2, evs⟩
      rw [hcf] at herr
      cases e with
      | none => exact absurd rfl herr
      | some err =>
        have hpres := copyFile_preserves_other ops fs src dst src hsd
        rw [hcf] at hpres
        simp only [renameFile, if_neg hsd, hcf]
        rw [hpres, hsrc]
    · intro _ hok
      have hfiles := copyFile_ok_files ops fs src dst content mode hsrc hok
      rcases hcf : copyFile ops fs src dst with ⟨e, fs2, evs⟩
      rw [hcf] at hok hfiles
      subst hok
      refine ⟨?_, ?_, ?_, ?_⟩
      · rw [hfiles, goLookup_goInsert_self]
      · have hfs2 : fs2.files =
            goInsert (goInsert (goInsert fs.files dst ([], createMode)) dst
              (content, createMode)) dst (content, mode) := by
          simpa using hfiles
        cases hro2 : ops.removeOk with
        | false =>
          simp only [renameFile, if_neg hsd, hcf, hro2, Bool.false_eq_true,
            if_false]
          rw [hfs2, goLookup_goInsert_self]
        | true =>
          simp only [renameFile, if_neg hsd, hcf, hro2, if_true]
          rw [goLookup_goErase_ne (Ne.symm hsd), hfs2, goLookup_goInsert_self]
      · intro hro
        have hfs2 : fs2.files =
            goInsert (goInsert (goInsert fs.files dst ([], createMode)) dst
              (content, createMode)) dst (content, mode) := by
          simpa using hfiles
        refine ⟨?_, ?_⟩
        · simp [renameFile, hsd, hcf, hro]
        · simp only [renameFile, if_neg hsd, hcf, hro, if_true]
          rw [hfs2]
          exact goLookup_goErase_self_of_nodup
            (goInsert_keys_nodup (goInsert_keys_nodup (goInsert_keys_nodup hnd)))
      · intro hro
        have hfs2 : fs2.files =
            goInsert (goInsert (goInsert fs.files dst ([], createMode)) dst
              (content, createMode)) dst (content, mode) := by
          simpa using hfiles
        refine ⟨?_, ?_⟩
        · simp [renameFile, hsd, hcf, hro]
        · simp only [renameFile, if_neg hsd, hcf, hro, Bool.false_eq_true,
            if_false]
          rw [hfs2]
          rw [goLookup_goInsert_ne _ hsd, goLookup_goInsert_ne _ hsd,
            goLookup_goInsert_ne _ hsd, hsrc]

/-- C8 amended, witness: a concrete successful move of `a` to `b` (all
calls succeed): the copy succeeds, the destination holds the source's bytes
and mode, and the source is removed afterwards. -/
theorem C8_amended_copy_then_delete_witness :
    (copyFile opsAll fs8 "a" "b").1 = none ∧
    goLookup (copyFile opsAll fs8 "a" "b").2.1.files "b" =
      some ([1, 2, 3], 420) ∧
    (renameFile opsAll fs8 "a" "b").1 = none ∧
    goLookup (renameFile opsAll fs8 "a" "b").2.1.files "a" = none := by
  have h := (C8_amended_copy_then_delete opsAll fs8 "a" "b" [1, 2, 3] 420
    (by decide) (by decide)).2.2.2 (by decide) (by decide)
  exact ⟨by decide, h.1, (h.2.2.1 rfl).1, (h.2.2.1 rfl).2⟩


/-! ## Claim C9 -/

/-- C9: confirmed.  The Egress Guard's classifier returns blocked (`true`)
for every address in IPv4 loopback `127.0.0.0/8`, the RFC1918 ranges
`10.0.0.0/8`, `172.16.0.0/12` and `192.168.0.0/16`, IPv4 link-local
`169.254.0.0/16`, IPv6 loopback `::1`, IPv6 link-local `fe80::/10` and
IPv6 unique-local `fc00::/7`, and returns allowed (`false`) for the public
address `93.184.216.34`. -/
theorem C9_egress_guard_blocklist :
    (∀ b c d : Nat, isPrivateIP (.v4 127 b c d) = true) ∧
    (∀ b c d : Nat, isPrivateIP (.v4 10 b c d) = true) ∧
    (∀ x b c : Nat, 16 ≤ x → x ≤ 31 → isPrivateIP (.v4 172 x b c) = true) ∧
    (∀ b c : Nat, isPrivateIP (.v4 192 168 b c) = true) ∧
    (∀ b c : Nat, isPrivateIP (.v4 169 254 b c) = true) ∧
    isPrivateIP (.v6 ipv6Loopback) = true ∧
    (∀ b1 b2 b3 b4 b5 b6 b7 b8 b9 b10 b11 b12 b13 b14 b15 : Nat,
      b1 &&& 192 = 128 →
      isPrivateIP (.v6 [254, b1, b2, b3, b4, b5, b6, b7, b8, b9, b10, b11,
        b12, b13, b14, b15]) = true) ∧
    (∀ b0 b1 b2 b3 b4 b5 b6 b7 b8 b9 b10 b11 b12 b13 b14 b15 : Nat,
      b0 &&& 254 = 252 →
      isPrivateIP (.v6 [b0, b1, b2, b3, b4, b5, b6, b7, b8, b9, b10, b11,
        b12, b13, b14, b15]) = true) ∧
    isPrivateIP (.v4 93 184 216 34) = false := by
  refine ⟨?_, ?_, ?_, ?_, ?_, by decide, ?_, ?_, by decide⟩
  · intro b c d
    simp [isPrivateIP, ipIsLoopback]
  · intro b c d
    simp only [isPrivateIP, Bool.or_eq_true]
    right
    simp [privateIPBlocks, cidrContains, maskedEq, Nat.and_zero]
  · intro x b c h1 h2
    simp only [isPrivateIP, Bool.or_eq_true]
    right
    interval_cases x <;>
      simp +decide [privateIPBlocks, cidrContains, maskedEq, Nat.and_zero]
  · intro b c
    simp only [isPrivateIP, Bool.or_eq_true]
    right
    simp [privateIPBlocks, cidrContains, maskedEq, Nat.and_zero]
  · intro b c
    simp only [isPrivateIP, Bool.or_eq_true]
    left; left; right
    simp [ipIsLinkLocalUnicast]
  · intro b1 b2 b3 b4 b5 b6 b7 b8 b9 b10 b11 b12 b13 b14 b15 hb1
    simp only [isPrivateIP, Bool.or_eq_true]
    left; left; right
    simp [ipIsLinkLocalUnicast, to4, hb1]
  · intro b0 b1 b2 b3 b4 b5 b6 b7 b8 b9 b10 b11 b12 b13 b14 b15 hb0
    have h0 : b0 ≠ 0 := by
      intro h
      rw [h] at hb0
      simp [Nat.zero_and] at hb0
    simp only [isPrivateIP, Bool.or_eq_true]
    right
    have hto4 : to4 [b0, b1, b2, b3, b4, b5, b6, b7, b8, b9, b10, b11,
        b12, b13, b14, b15] = none := by
      simp [to4, List.replicate, h0]
    simp [privateIPBlocks, cidrContains, hto4, maskedEq, Nat.and_zero, hb0]
    right; right; decide

/-- C9 witness: concrete members of the quantified ranges — an
`fe80::`-prefixed address and `172.16.0.1` — are blocked. -/
theorem C9_egress_guard_blocklist_witness :
    isPrivateIP (.v6 [254, 128, 0, 0, 0, 0, 0, 0, 0, 0, 0, 0, 0, 0, 0, 1]) =
      true ∧
    isPrivateIP (.v4 172 16 0 1) = true :=
  ⟨C9_egress_guard_blocklist.2.2.2.2.2.2.1
      128 0 0 0 0 0 0 0 0 0 0 0 0 0 1 (by decide),
   C9_egress_guard_blocklist.2.2.1 16 0 1 (by decide) (by decide)⟩

end Crane
